import Mathlib

/-!
Verification of the quaternion types and angle-wrap utilities of the `rm`
rotations library (files `rm_common/include/rm/common/common.hpp` and
`rm_quaternions/include/rm/quaternions/QuaternionEigen.hpp`).

Scalars are modelled as exact real numbers.  The debug assertion macro
`RM_ASSERT_SCALAR_NEAR_DBG` and the quaternion base-class `cast`, whose
sources are not among the two files above, are modelled from the
specification and marked as such.  A second model of `Mod` over dyadic
rational numbers with explicit IEEE-754 binary64 round-to-nearest-even
captures the floating-point boundary cases.
-/

namespace rm

/-- Exact-real model of `rm::common::Mod` (common.hpp, lines 54-94).
The local variable `m = x - y*floor(x/y)` of the source is inlined; the
branch structure mirrors the source: for `y > 0` the clamp `m >= y -> 0`,
then the negative-residual correction `m < 0 -> (y+m == y ? 0 : y+m)`,
symmetrically for `y < 0`, and otherwise `m` itself. -/
noncomputable def Mod (x y : ℝ) : ℝ :=
  if y = 0 then x
  else if 0 < y then
    if y ≤ x - y * (⌊x / y⌋ : ℝ) then 0
    else if x - y * (⌊x / y⌋ : ℝ) < 0 then
      if y + (x - y * (⌊x / y⌋ : ℝ)) = y then 0 else y + (x - y * (⌊x / y⌋ : ℝ))
    else x - y * (⌊x / y⌋ : ℝ)
  else
    if x - y * (⌊x / y⌋ : ℝ) ≤ y then 0
    else if 0 < x - y * (⌊x / y⌋ : ℝ) then
      if y + (x - y * (⌊x / y⌋ : ℝ)) = y then 0 else y + (x - y * (⌊x / y⌋ : ℝ))
    else x - y * (⌊x / y⌋ : ℝ)

/-- Model of `rm::common::wrapPosNegPI` (common.hpp, lines 104-108):
`Mod(angle + M_PI, 2*M_PI) - M_PI`. -/
noncomputable def wrapPosNegPI (angle : ℝ) : ℝ :=
  Mod (angle + Real.pi) (2 * Real.pi) - Real.pi

/-- Model of `rm::common::wrapTwoPI` (common.hpp, lines 111-115):
`Mod(angle, 2*M_PI)`. -/
noncomputable def wrapTwoPI (angle : ℝ) : ℝ :=
  Mod angle (2 * Real.pi)

lemma sub_floor_mul_eq_fract (x y : ℝ) (hy0 : y ≠ 0) :
    x - y * (⌊x / y⌋ : ℝ) = y * Int.fract (x / y) := by
  rw [Int.fract, mul_sub, mul_comm y (x / y), div_mul_cancel₀ x hy0]

lemma Mod_of_pos (x y : ℝ) (hy : 0 < y) :
    Mod x y = x - y * (⌊x / y⌋ : ℝ) ∧ 0 ≤ Mod x y ∧ Mod x y < y := by
  have hy0 : y ≠ 0 := ne_of_gt hy
  have hmf := sub_floor_mul_eq_fract x y hy0
  have h0 : 0 ≤ x - y * (⌊x / y⌋ : ℝ) := by
    rw [hmf]; exact mul_nonneg hy.le (Int.fract_nonneg _)
  have h1 : x - y * (⌊x / y⌋ : ℝ) < y := by
    rw [hmf]
    have := mul_lt_mul_of_pos_left (Int.fract_lt_one (x / y)) hy
    simpa using this
  have hMod : Mod x y = x - y * (⌊x / y⌋ : ℝ) := by
    unfold Mod
    rw [if_neg hy0, if_pos hy, if_neg (not_le.mpr h1), if_neg (not_lt.mpr h0)]
  exact ⟨hMod, hMod ▸ h0, hMod ▸ h1⟩

lemma Mod_of_neg (x y : ℝ) (hy : y < 0) :
    Mod x y = x - y * (⌊x / y⌋ : ℝ) ∧ y < Mod x y ∧ Mod x y ≤ 0 := by
  have hy0 : y ≠ 0 := ne_of_lt hy
  have hmf := sub_floor_mul_eq_fract x y hy0
  have h0 : x - y * (⌊x / y⌋ : ℝ) ≤ 0 := by
    rw [hmf]
    nlinarith [Int.fract_nonneg (x / y)]
  have h1 : y < x - y * (⌊x / y⌋ : ℝ) := by
    rw [hmf]
    nlinarith [Int.fract_lt_one (x / y), Int.fract_nonneg (x / y)]
  have hMod : Mod x y = x - y * (⌊x / y⌋ : ℝ) := by
    unfold Mod
    rw [if_neg hy0, if_neg (not_lt.mpr hy.le), if_neg (not_le.mpr h1),
      if_neg (not_lt.mpr h0)]
  exact ⟨hMod, hMod ▸ h1, hMod ▸ h0⟩

/-- C2: for every real `x` and positive modulus `y`, `Mod x y` lies in the
half-open interval `[0, y)` (in particular it is never negative and never
equals `y`); for negative `y` it lies in `(y, 0]`. -/
theorem Mod_range (x y : ℝ) :
    (0 < y → 0 ≤ Mod x y ∧ Mod x y < y) ∧
    (y < 0 → y < Mod x y ∧ Mod x y ≤ 0) :=
  ⟨fun hy => (Mod_of_pos x y hy).2, fun hy => (Mod_of_neg x y hy).2⟩

/-- Witness for C2 at `x = 1, y = 2` and `x = 1, y = -2`. -/
theorem Mod_range_witness :
    (0 ≤ Mod 1 2 ∧ Mod 1 2 < 2) ∧ ((-2 : ℝ) < Mod 1 (-2) ∧ Mod 1 (-2) ≤ 0) :=
  ⟨(Mod_range 1 2).1 (by norm_num), (Mod_range 1 (-2)).2 (by norm_num)⟩

/-- C9: `Mod` with zero modulus returns the input unchanged: the degenerate
case is defined behavior, not an error. -/
theorem Mod_zero_modulus (x : ℝ) : Mod x 0 = x := by
  unfold Mod
  rw [if_pos rfl]

/-- C7: for every real angle, `wrapPosNegPI` lands in `[-π, π)`, `wrapTwoPI`
lands in `[0, 2π)`, and `wrapPosNegPI angle` is congruent to `angle`
modulo `2π`. -/
theorem wrap_angle_ranges (angle : ℝ) :
    (-Real.pi ≤ wrapPosNegPI angle ∧ wrapPosNegPI angle < Real.pi) ∧
    (0 ≤ wrapTwoPI angle ∧ wrapTwoPI angle < 2 * Real.pi) ∧
    ∃ k : ℤ, wrapPosNegPI angle = angle + 2 * Real.pi * k := by
  have h2 : 0 < 2 * Real.pi := by positivity
  obtain ⟨heq, h0, h1⟩ := Mod_of_pos (angle + Real.pi) (2 * Real.pi) h2
  obtain ⟨-, t0, t1⟩ := Mod_of_pos angle (2 * Real.pi) h2
  refine ⟨⟨?_, ?_⟩, ⟨t0, t1⟩, ⟨-⌊(angle + Real.pi) / (2 * Real.pi)⌋, ?_⟩⟩
  · unfold wrapPosNegPI; linarith
  · unfold wrapPosNegPI; linarith
  · unfold wrapPosNegPI
    rw [heq]
    push_cast
    ring

/-- Model of `rm::quaternions::eigen_implementation::Quaternion`
(QuaternionEigen.hpp, lines 33-161): four real coefficients in Hamilton
convention, no invariant. -/
structure Quaternion where
  w : ℝ
  x : ℝ
  y : ℝ
  z : ℝ

/-- `Quaternion::norm()` (QuaternionEigen.hpp, lines 145-147), forwarding to
the Eigen kernel's Euclidean norm of the four coefficients. -/
noncomputable def Quaternion.norm (q : Quaternion) : ℝ :=
  Real.sqrt (q.w ^ 2 + q.x ^ 2 + q.y ^ 2 + q.z ^ 2)

/-- `Quaternion::normalized()` (QuaternionEigen.hpp, lines 154-156),
forwarding to the Eigen kernel: each coefficient divided by the norm. -/
noncomputable def Quaternion.normalized (q : Quaternion) : Quaternion :=
  ⟨q.w / q.norm, q.x / q.norm, q.y / q.norm, q.z / q.norm⟩

/-- Model of `rm::quaternions::eigen_implementation::UnitQuaternion`
(QuaternionEigen.hpp, lines 177-324): owns exactly one Quaternion value
(field `uq`). -/
structure UnitQuaternion where
  uq : Quaternion

/-- `UnitQuaternion::norm()` (QuaternionEigen.hpp, lines 313-315): forwards
to the owned quaternion. -/
noncomputable def UnitQuaternion.norm (u : UnitQuaternion) : ℝ :=
  u.uq.norm

/-- Modelled from the spec: `RM_ASSERT_SCALAR_NEAR_DBG` (the file
`rm/common/assert_macros_eigen.hpp` is not under src).  The checked
assertion passes exactly when the value is within `tol` of the target;
when it fails the operation aborts (checks enabled). -/
def scalarNearDbg (value target tol : ℝ) : Prop :=
  |value - target| ≤ tol

noncomputable instance (v t tol : ℝ) : Decidable (scalarNearDbg v t tol) :=
  inferInstanceAs (Decidable (|v - t| ≤ tol))

/-- Validating `UnitQuaternion` constructor from a quaternion value
(QuaternionEigen.hpp, lines 207-210 and 216-219): stores the coefficients
unchanged, then asserts `norm()` within `1e-6` of `1`.  `none` models the
invariant-violation assertion firing with checks enabled. -/
noncomputable def UnitQuaternion.fromQuat (q : Quaternion) : Option UnitQuaternion :=
  if scalarNearDbg (Quaternion.norm q) 1 (1 / 1000000) then some ⟨q⟩ else none

/-- Validating `UnitQuaternion` constructor from four coefficients
(QuaternionEigen.hpp, lines 201-204): stores `uq(w,x,y,z)`, then performs
the same assertion as the other validating constructors. -/
noncomputable def UnitQuaternion.fromCoeffs (w x y z : ℝ) : Option UnitQuaternion :=
  UnitQuaternion.fromQuat ⟨w, x, y, z⟩

/-- `UnitQuaternion::operator()(const Quaternion<PrimTypeIn>&)`
(QuaternionEigen.hpp, lines 237-247): copies the four coefficients into
the receiver, then asserts `norm()` within `1e-6` of `1`. -/
noncomputable def UnitQuaternion.setFromQuaternion (_u : UnitQuaternion)
    (other : Quaternion) : Option UnitQuaternion :=
  if scalarNearDbg (Quaternion.norm other) 1 (1 / 1000000) then some ⟨other⟩ else none

/-- `Quaternion::toUnitQuaternion()` (QuaternionEigen.hpp, lines 158-160):
`UnitQuaternion(this->Base::normalized())`, i.e. the validating
constructor applied to the normalized copy. -/
noncomputable def Quaternion.toUnitQuaternion (q : Quaternion) : Option UnitQuaternion :=
  UnitQuaternion.fromQuat q.normalized

lemma norm_one_quadruple : Quaternion.norm ⟨1, 0, 0, 0⟩ = 1 := by
  unfold Quaternion.norm
  norm_num

lemma norm_two_quadruple : Quaternion.norm ⟨2, 0, 0, 0⟩ = 2 := by
  unfold Quaternion.norm
  norm_num
  rw [show (4 : ℝ) = 2 ^ 2 by norm_num, Real.sqrt_sq (by norm_num : (0 : ℝ) ≤ 2)]

lemma near_one_quadruple : scalarNearDbg (Quaternion.norm ⟨1, 0, 0, 0⟩) 1 (1 / 1000000) := by
  rw [norm_one_quadruple]
  unfold scalarNearDbg
  norm_num

lemma not_near_two_quadruple :
    ¬ scalarNearDbg (Quaternion.norm ⟨2, 0, 0, 0⟩) 1 (1 / 1000000) := by
  rw [norm_two_quadruple]
  unfold scalarNearDbg
  norm_num

/-- C1: every validating construction of a UnitQuaternion succeeds when the
Euclidean norm of the four coefficients is within `1e-6` of `1` (this covers
the coefficient constructor and the Quaternion/implementation constructors,
which share the check), while the quadruple `(2,0,0,0)` of norm `2` makes the
invariant-violation assertion fire when checks are enabled. -/
theorem unitQuaternion_ctor_asserts :
    (∀ w x y z : ℝ, scalarNearDbg (Quaternion.norm ⟨w, x, y, z⟩) 1 (1 / 1000000) →
      (UnitQuaternion.fromCoeffs w x y z).isSome = true) ∧
    (∀ q : Quaternion, scalarNearDbg (Quaternion.norm q) 1 (1 / 1000000) →
      (UnitQuaternion.fromQuat q).isSome = true) ∧
    UnitQuaternion.fromCoeffs 2 0 0 0 = none := by
  refine ⟨?_, ?_, ?_⟩
  · intro w x y z h
    unfold UnitQuaternion.fromCoeffs UnitQuaternion.fromQuat
    rw [if_pos h]
    rfl
  · intro q h
    unfold UnitQuaternion.fromQuat
    rw [if_pos h]
    rfl
  · unfold UnitQuaternion.fromCoeffs UnitQuaternion.fromQuat
    rw [if_neg not_near_two_quadruple]

/-- Witness for C1 at the unit quadruple `(1,0,0,0)`. -/
theorem unitQuaternion_ctor_asserts_witness :
    (UnitQuaternion.fromCoeffs 1 0 0 0).isSome = true :=
  unitQuaternion_ctor_asserts.1 1 0 0 0 near_one_quadruple

/-- C10: the validating constructors store the given coefficients exactly as
supplied: whenever construction succeeds, the owned quaternion equals the
input coefficient-wise (no renormalization is performed). -/
theorem unitQuaternion_ctor_stores_exactly :
    (∀ (q : Quaternion) (u : UnitQuaternion),
      UnitQuaternion.fromQuat q = some u → u.uq = q) ∧
    (∀ (w x y z : ℝ) (u : UnitQuaternion),
      UnitQuaternion.fromCoeffs w x y z = some u →
        u.uq.w = w ∧ u.uq.x = x ∧ u.uq.y = y ∧ u.uq.z = z) := by
  constructor
  · intro q u h
    unfold UnitQuaternion.fromQuat at h
    by_cases hc : scalarNearDbg (Quaternion.norm q) 1 (1 / 1000000)
    · rw [if_pos hc] at h
      cases h
      rfl
    · rw [if_neg hc] at h
      cases h
  · intro w x y z u h
    unfold UnitQuaternion.fromCoeffs UnitQuaternion.fromQuat at h
    by_cases hc : scalarNearDbg (Quaternion.norm ⟨w, x, y, z⟩) 1 (1 / 1000000)
    · rw [if_pos hc] at h
      cases h
      exact ⟨rfl, rfl, rfl, rfl⟩
    · rw [if_neg hc] at h
      cases h

/-- Witness for C10 at the quadruple `(1,0,0,0)`. -/
theorem unitQuaternion_ctor_stores_exactly_witness :
    (⟨⟨1, 0, 0, 0⟩⟩ : UnitQuaternion).uq.w = 1 ∧
    (⟨⟨1, 0, 0, 0⟩⟩ : UnitQuaternion).uq.x = 0 ∧
    (⟨⟨1, 0, 0, 0⟩⟩ : UnitQuaternion).uq.y = 0 ∧
    (⟨⟨1, 0, 0, 0⟩⟩ : UnitQuaternion).uq.z = 0 :=
  unitQuaternion_ctor_stores_exactly.2 1 0 0 0 ⟨⟨1, 0, 0, 0⟩⟩ (by
    unfold UnitQuaternion.fromCoeffs UnitQuaternion.fromQuat
    rw [if_pos near_one_quadruple])

lemma norm_normalized (q : Quaternion) (h : q.norm ≠ 0) :
    q.normalized.norm = 1 := by
  have hs : 0 ≤ q.w ^ 2 + q.x ^ 2 + q.y ^ 2 + q.z ^ 2 := by positivity
  have hsq : q.norm ^ 2 = q.w ^ 2 + q.x ^ 2 + q.y ^ 2 + q.z ^ 2 := Real.sq_sqrt hs
  have hkey : (q.w / q.norm) ^ 2 + (q.x / q.norm) ^ 2 + (q.y / q.norm) ^ 2 +
      (q.z / q.norm) ^ 2 = 1 := by
    have hexp : (q.w / q.norm) ^ 2 + (q.x / q.norm) ^ 2 + (q.y / q.norm) ^ 2 +
        (q.z / q.norm) ^ 2 =
        (q.w ^ 2 + q.x ^ 2 + q.y ^ 2 + q.z ^ 2) / q.norm ^ 2 := by
      field_simp
    rw [hexp, hsq.symm, div_self (pow_ne_zero 2 h)]
  show Real.sqrt ((q.w / q.norm) ^ 2 + (q.x / q.norm) ^ 2 + (q.y / q.norm) ^ 2 +
      (q.z / q.norm) ^ 2) = 1
  rw [hkey, Real.sqrt_one]

/-- C6: for every quaternion of non-zero norm, `toUnitQuaternion` normalizes
first and therefore always passes the validating constructor (the assertion
never fires), and the stored value has norm within `1e-6` of `1`. -/
theorem toUnitQuaternion_roundtrip (q : Quaternion) (h : Quaternion.norm q ≠ 0) :
    Quaternion.toUnitQuaternion q = some ⟨q.normalized⟩ ∧
    scalarNearDbg (Quaternion.norm q.normalized) 1 (1 / 1000000) := by
  have hnear : scalarNearDbg (Quaternion.norm q.normalized) 1 (1 / 1000000) := by
    rw [norm_normalized q h]
    unfold scalarNearDbg
    norm_num
  constructor
  · unfold Quaternion.toUnitQuaternion UnitQuaternion.fromQuat
    rw [if_pos hnear]
  · exact hnear

/-- Witness for C6 at the quadruple `(2,0,0,0)` of norm `2`. -/
theorem toUnitQuaternion_roundtrip_witness :
    Quaternion.toUnitQuaternion ⟨2, 0, 0, 0⟩ =
      some ⟨Quaternion.normalized ⟨2, 0, 0, 0⟩⟩ ∧
    scalarNearDbg (Quaternion.norm (Quaternion.normalized ⟨2, 0, 0, 0⟩)) 1 (1 / 1000000) :=
  toUnitQuaternion_roundtrip ⟨2, 0, 0, 0⟩ (by rw [norm_two_quadruple]; norm_num)

/-- C3 counterexample: the element-wise `operator()` taking a raw Quaternion
does run the norm assertion; on the non-unit source `(2,0,0,0)` it fires
(models as `none`), contradicting the claim that no assertion can fire on
this path. -/
theorem setFromQuaternion_assert_fires :
    UnitQuaternion.setFromQuaternion ⟨⟨1, 0, 0, 0⟩⟩ ⟨2, 0, 0, 0⟩ = none := by
  unfold UnitQuaternion.setFromQuaternion
  rw [if_neg not_near_two_quadruple]

/-- C3 (amended): the element-wise `operator()` taking a raw Quaternion
copies the four coefficients and then re-checks the unit-norm invariant:
when it succeeds the result holds exactly the source coefficients and is
unit-norm within tolerance, and when the source norm is not within `1e-6`
of `1` the invariant-violation assertion fires (checks enabled). -/
theorem setFromQuaternion_checks_norm :
    ∀ (u : UnitQuaternion) (q : Quaternion),
      (∀ r : UnitQuaternion, UnitQuaternion.setFromQuaternion u q = some r →
        r.uq = q ∧ scalarNearDbg (UnitQuaternion.norm r) 1 (1 / 1000000)) ∧
      (¬ scalarNearDbg (Quaternion.norm q) 1 (1 / 1000000) →
        UnitQuaternion.setFromQuaternion u q = none) := by
  intro u q
  constructor
  · intro r h
    unfold UnitQuaternion.setFromQuaternion at h
    by_cases hc : scalarNearDbg (Quaternion.norm q) 1 (1 / 1000000)
    · rw [if_pos hc] at h
      cases h
      exact ⟨rfl, hc⟩
    · rw [if_neg hc] at h
      cases h
  · intro hc
    unfold UnitQuaternion.setFromQuaternion
    rw [if_neg hc]

/-- Witness for C3's amended theorem at the unit source `(1,0,0,0)`. -/
theorem setFromQuaternion_checks_norm_witness :
    (⟨⟨1, 0, 0, 0⟩⟩ : UnitQuaternion).uq = ⟨1, 0, 0, 0⟩ ∧
    scalarNearDbg (UnitQuaternion.norm ⟨⟨1, 0, 0, 0⟩⟩) 1 (1 / 1000000) :=
  (setFromQuaternion_checks_norm ⟨⟨1, 0, 0, 0⟩⟩ ⟨1, 0, 0, 0⟩).1 ⟨⟨1, 0, 0, 0⟩⟩ (by
    unfold UnitQuaternion.setFromQuaternion
    rw [if_pos near_one_quadruple])

/-- `Quaternion::operator=(const Quaternion<PrimType>&)`
(QuaternionEigen.hpp, lines 69-72).  Its body is `*this = other; return
*this;`, which calls the very same operator again, so each call only
consumes a stack frame; `fuel` counts the remaining call depth and `none`
models that the call never returns. -/
def Quaternion.assignQQ : ℕ → Quaternion → Quaternion → Option Quaternion
  | 0, _, _ => none
  | fuel + 1, self, other => Quaternion.assignQQ fuel self other

/-- `Quaternion::operator=(const UnitQuaternion<PrimType>&)`
(QuaternionEigen.hpp, lines 74-77): `*this = Quaternion(other.toImplementation())`
builds a plain quaternion holding the source coefficients and hands it to
`operator=(const Quaternion&)`. -/
def Quaternion.assignQU : ℕ → Quaternion → UnitQuaternion → Option Quaternion
  | 0, _, _ => none
  | fuel + 1, self, other => Quaternion.assignQQ fuel self other.uq

/-- Modelled from the spec: `UnitQuaternionBase::cast` (`QuaternionBase.hpp`
is not under src) re-derives the coefficients in the target precision and
re-checks the unit-norm invariant there.  In this exact-real model the
precision conversion is the identity on coefficients, so the re-check
passes whenever the source was valid. -/
def UnitQuaternion.castSpec (u : UnitQuaternion) : UnitQuaternion := u

/-- `UnitQuaternion::operator=(const UnitQuaternion<PrimTypeIn>&)`
(QuaternionEigen.hpp, lines 221-229): `uq = other.template cast<PrimType>()`,
an assignment to the owned Quaternion, which dispatches to
`Quaternion::operator=`. -/
def UnitQuaternion.assignUU : ℕ → UnitQuaternion → UnitQuaternion → Option UnitQuaternion
  | 0, _, _ => none
  | fuel + 1, self, other =>
      (Quaternion.assignQU fuel self.uq (UnitQuaternion.castSpec other)).map
        fun q => ⟨q⟩

lemma assignQQ_eq_none (fuel : ℕ) (self other : Quaternion) :
    Quaternion.assignQQ fuel self other = none := by
  induction fuel with
  | zero => rfl
  | succ n ih => exact ih

lemma assignQU_eq_none (fuel : ℕ) (self : Quaternion) (other : UnitQuaternion) :
    Quaternion.assignQU fuel self other = none := by
  cases fuel with
  | zero => rfl
  | succ n => exact assignQQ_eq_none n self other.uq

/-- C5: `Quaternion::operator=` never returns, whatever the call-depth
budget: `*this = other;` re-invokes the same operator, so assignment from a
Quaternion or from a UnitQuaternion of matching precision recurses until
the stack is exhausted instead of copying the coefficients. -/
theorem quaternion_assign_diverges (fuel : ℕ) (self other : Quaternion)
    (uother : UnitQuaternion) :
    Quaternion.assignQQ fuel self other = none ∧
    Quaternion.assignQU fuel self uother = none :=
  ⟨assignQQ_eq_none fuel self other, assignQU_eq_none fuel self uother⟩

/-- C4: cross-precision `UnitQuaternion::operator=` never returns either:
its body assigns to the owned Quaternion through the self-recursive
`Quaternion::operator=`, so it cannot re-check anything or leave the
target unit-norm. -/
theorem unitQuaternion_assign_diverges (fuel : ℕ) (self other : UnitQuaternion) :
    UnitQuaternion.assignUU fuel self other = none := by
  cases fuel with
  | zero => rfl
  | succ n =>
      show (Quaternion.assignQU n self.uq (UnitQuaternion.castSpec other)).map _ = none
      rw [assignQU_eq_none n self.uq (UnitQuaternion.castSpec other)]
      rfl

/-!
IEEE-754 binary64 model of `Mod` for the floating-point boundary cases.
Values are unreduced fractions `(num, den)` with positive denominator,
kept as plain integer pairs so that every operation evaluates by kernel
reduction.  `fl` rounds an exact rational to the nearest binary64 value
(round-to-nearest, ties-to-even, 53-bit significand; overflow and
subnormals do not occur at the magnitudes involved here).
-/

/-- Unreduced fraction: numerator and (positive) denominator. -/
abbrev Q2 := ℤ × ℤ

/-- Exact product of two fractions. -/
def qMul (a b : Q2) : Q2 := (a.1 * b.1, a.2 * b.2)

/-- Exact sum of two fractions. -/
def qAdd (a b : Q2) : Q2 := (a.1 * b.2 + b.1 * a.2, a.2 * b.2)

/-- Exact difference of two fractions. -/
def qSub (a b : Q2) : Q2 := (a.1 * b.2 - b.1 * a.2, a.2 * b.2)

/-- Exact quotient of two fractions (the divisor must be non-zero); the
sign is moved to the numerator to keep the denominator positive. -/
def qDiv (a b : Q2) : Q2 :=
  let n := a.1 * b.2
  let d := a.2 * b.1
  if d < 0 then (-n, -d) else (n, d)

/-- Value comparison of fractions with positive denominators. -/
def qLe (a b : Q2) : Prop := a.1 * b.2 ≤ b.1 * a.2

/-- Strict value comparison of fractions with positive denominators. -/
def qLt (a b : Q2) : Prop := a.1 * b.2 < b.1 * a.2

/-- Value equality of fractions with positive denominators; this is what
comparing two binary64 values with `==` decides. -/
def qEq (a b : Q2) : Prop := a.1 * b.2 = b.1 * a.2

instance (a b : Q2) : Decidable (qLe a b) := inferInstanceAs (Decidable (_ ≤ _))

instance (a b : Q2) : Decidable (qLt a b) := inferInstanceAs (Decidable (_ < _))

instance (a b : Q2) : Decidable (qEq a b) := inferInstanceAs (Decidable (_ = _))

/-- Mathematical floor of a fraction with positive denominator (the C
`floor` of a binary64 value is exact, so it needs no rounding step). -/
def qFloor (a : Q2) : ℤ := a.1.fdiv a.2

/-- Fuel-driven base-2 logarithm on naturals (`log2Fuel n n` is
`floor (log2 n)` for `n > 0`); the explicit fuel keeps the recursion
structural so that it evaluates by kernel reduction. -/
def log2Fuel : ℕ → ℕ → ℕ
  | 0, _ => 0
  | fuel + 1, n => if 2 ≤ n then log2Fuel fuel (n / 2) + 1 else 0

/-- Round a fraction with positive denominator to the nearest integer,
ties to even: `2*(num - floor*den)` compared with `den` decides whether
the fractional part is below, above, or exactly one half. -/
def roundNearestEven (a : Q2) : ℤ :=
  let f := qFloor a
  let twice := 2 * (a.1 - f * a.2)
  if twice < a.2 then f
  else if a.2 < twice then f + 1
  else if f % 2 = 0 then f else f + 1

/-- `floor (log2 |a|)` of a non-zero fraction: from the bit lengths `i, j`
of numerator and denominator the result is `i - j` or `i - j - 1`,
decided by comparing `|a|` with `2 ^ (i - j)` by cross-multiplication. -/
def qLog2Floor (a : Q2) : ℤ :=
  let n := a.1.natAbs
  let d := a.2.toNat
  let i := log2Fuel n n
  let j := log2Fuel d d
  if (d : ℤ) * 2 ^ i ≤ (n : ℤ) * 2 ^ j then (i : ℤ) - (j : ℤ)
  else (i : ℤ) - (j : ℤ) - 1

/-- Round an exact rational to the nearest IEEE-754 binary64 value
(round-to-nearest, ties-to-even): scale `|a|` into `[2^52, 2^53)` by the
power of two `2^e` with `e = floor (log2 |a|) - 52`, round the scaled
significand to an integer with ties to even, and scale back. -/
def fl (a : Q2) : Q2 :=
  if a.1 = 0 then (0, 1)
  else
    let e : ℤ := qLog2Floor a - 52
    let scaled : Q2 :=
      if 0 ≤ e then (|a.1|, a.2 * 2 ^ e.toNat) else (|a.1| * 2 ^ (-e).toNat, a.2)
    let m : ℤ := roundNearestEven scaled
    let sm : ℤ := if a.1 < 0 then -m else m
    if 0 ≤ e then (sm * 2 ^ e.toNat, 1) else (sm, 2 ^ (-e).toNat)

/-- The fraction `0`. -/
def qZero : Q2 := (0, 1)

/-- Binary64 model of `rm::common::Mod` (common.hpp, lines 54-94) at
`T = double`: `m = x - y*floor(x/y)` with each arithmetic operation
rounded by `fl` (`floor` itself is exact), followed by the source's
boundary-correction branches, whose comparisons and the `y+m == y` test
compare exact values of binary64 numbers. -/
def ModD (x y : Q2) : Q2 :=
  if y.1 = 0 then x
  else
    let m := fl (qSub x (fl (qMul y (qFloor (fl (qDiv x y)), 1))))
    if qLt qZero y then
      if qLe y m then qZero
      else if qLt m qZero then (if qEq (fl (qAdd y m)) y then qZero else fl (qAdd y m))
      else m
    else
      if qLe m y then qZero
      else if qLt qZero m then (if qEq (fl (qAdd y m)) y then qZero else fl (qAdd y m))
      else m

/-- The IEEE-754 binary64 value of the C constant `M_PI`:
`884279719003555 * 2^-48`. -/
def piD : Q2 := (884279719003555, 2 ^ 48)

/-- The binary64 evaluation of `2*M_PI` (exact, a power-of-two scaling). -/
def twoPiD : Q2 := fl (qMul (2, 1) piD)

/-- The binary64 value of the literal `-1e-16` (the decimal rounded to the
nearest binary64 number). -/
def xTiny : Q2 := fl (-1, 10 ^ 16)

/-- The binary64 value of the literal `106.81415022205296`. -/
def xBig : Q2 := fl (10681415022205296, 10 ^ 14)

set_option maxRecDepth 100000 in
/-- C8: in binary64 arithmetic the boundary-correction branches of `Mod`
fire correctly on the spec's regression inputs: `Mod(-1e-16, 360.0)`
returns exactly `0` (the computed residual `m` rounds to `360`, hence the
clamp), and `Mod(106.81415022205296, 2π)` returns a value inside
`[0, 2π)` instead of the tiny negative residual `m = -1.421e-14`. -/
theorem ModD_boundary_cases :
    qEq (ModD xTiny (360, 1)) qZero ∧
    qLe qZero (ModD xBig twoPiD) ∧ qLt (ModD xBig twoPiD) twoPiD := by
  decide

end rm
